import Mathlib

/-!
Shallow embedding of `src/time_vktrbr/worktime.py` and `src/time/worktime.py`.

Timestamps (`pd.Timestamp`, second precision) are modelled as `Int` seconds
since the epoch; a calendar date is then the floor of division by 86400
(`Int` division in Lean is Euclidean division, which is floor division for a
positive divisor, matching Python's `.date()` on an epoch-seconds clock).
Durations (`pd.Timedelta`) are `Int` seconds.  Python runtime failures that
abort a call without producing a value (failed `assert`s, `IndexError` from
out-of-bounds list indexing, `ValueError` from `list.remove`) are modelled by
`Except`.
-/

namespace Worktime

/-- Embeds `ScheduleDay` of `src/time_vktrbr/worktime.py` (a `NamedTuple` of
start timestamp, end timestamp and working-day flag).  The Python field `end`
is a Lean keyword and is rendered `end_`. -/
structure ScheduleDay where
  start : Int
  end_ : Int
  is_work : Bool
deriving DecidableEq, Repr

/-- Calendar date of a timestamp, as used by `start.date() == end.date()` on
line 52 of `src/time_vktrbr/worktime.py`: the day index containing the
instant, i.e. floor division of epoch seconds by 86400. -/
def dateOf (t : Int) : Int := t / 86400

/-- Failure modes of a call that aborts without producing a value.
`invalidInput` covers the eager validation failures of lines 40-42 of
`src/time_vktrbr/worktime.py` (the `IndexError` raised by `schedule[0]` on an
empty list and the `AssertionError` of `start <= end`), which the spec's
error taxonomy groups as `InvalidInput`.  `indexError` is an out-of-bounds
list access after validation; `valueError` is `list.remove` of an absent
element. -/
inductive WErr where
  | invalidInput
  | indexError
  | valueError
deriving DecidableEq, Repr

/-- Embeds `schedule.sort(key=lambda x: x.start)` (line 44).  Python's sort is
a stable sort by the `start` key; `List.insertionSort` with this relation is
also stable, so it produces the identical list. -/
def sortByStart (schedule : List ScheduleDay) : List ScheduleDay :=
  schedule.insertionSort (fun a b => a.start ≤ b.start)

/-- Embeds lines 44-48: the schedule sorted by `start`, then filtered to the
windows with `x.start <= end and start <= x.end`.  This is the list the local
variable `schedule` holds after line 48. -/
def survivors (start end_ : Int) (schedule : List ScheduleDay) : List ScheduleDay :=
  (sortByStart schedule).filter (fun w => decide (w.start ≤ end_ ∧ start ≤ w.end_))

/-- Embeds the loop of lines 59-63: iterate over the slice copy
`schedule[1:-1]` (first argument), accumulating `day.end - day.start` for
working days and removing each visited element from the live list (second
argument) with `schedule.remove(day)`, which raises `ValueError` when the
element is absent. -/
def reduceLoop : List ScheduleDay → List ScheduleDay → Int → Except WErr (List ScheduleDay × Int)
  | [], sch, acc => .ok (sch, acc)
  | d :: ds, sch, acc =>
    let acc' := if d.is_work then acc + (d.end_ - d.start) else acc
    if d ∈ sch then reduceLoop ds (sch.erase d) acc' else .error .valueError

/-- Embeds lines 66-71: read `schedule[0]` and `schedule[1]` of the remaining
list, adding the first-day term `schedule[0].end - start` and the last-day
term `end - schedule[1].start` when the respective flags are set.  Fewer than
two remaining elements is an `IndexError`. -/
def boundarySum (start end_ total : Int) : List ScheduleDay → Except WErr Int
  | d0 :: d1 :: _ =>
    .ok (total + (if d0.is_work then d0.end_ - start else 0)
               + (if d1.is_work then end_ - d1.start else 0))
  | _ => .error .indexError

/-- Embeds lines 50-71 of `src/time_vktrbr/worktime.py`, acting on the
sorted-and-filtered list: the single-survivor branch (lines 51-57, where
`schedule[0]` on an empty list would be an `IndexError`), the interior loop
(lines 59-63, only when more than two survive), and the boundary terms
(lines 66-71). -/
def afterFilter (start end_ : Int) (sch : List ScheduleDay) : Except WErr Int :=
  if sch.length = 1 then
    if dateOf start = dateOf end_ then .ok (end_ - start)
    else
      match sch.head? with
      | some w => .ok (w.end_ - start)
      | none => .error .indexError
  else
    match (if 2 < sch.length then reduceLoop ((sch.drop 1).dropLast) sch 0 else .ok (sch, 0)) with
    | .error e => .error e
    | .ok st => boundarySum start end_ st.2 st.1

/-- Embeds `worktime` of `src/time_vktrbr/worktime.py` (lines 30-71): the
eager validation of lines 40-42 (empty schedule aborts at `schedule[0]`,
`start > end` fails the assert), then sort, filter and interval reduction. -/
def worktime (start end_ : Int) (schedule : List ScheduleDay) : Except WErr Int :=
  if schedule = [] then .error .invalidInput
  else if end_ < start then .error .invalidInput
  else afterFilter start end_ (survivors start end_ schedule)

/-- The caller's list after a call to `worktime`.  Line 44 sorts the caller's
list in place; line 48 rebinds the local name to a fresh filtered list, so the
later `remove` calls never touch the caller's list.  When validation fails
(empty schedule or `start > end`, lines 40-42) the call aborts before the
sort and the list is untouched. -/
def scheduleAfterCall (start end_ : Int) (schedule : List ScheduleDay) : List ScheduleDay :=
  if schedule = [] then schedule
  else if end_ < start then schedule
  else sortByStart schedule

/-- Sum of `day.end - day.start` over the working days of a list, in order:
the quantity the loop of lines 59-63 accumulates. -/
def sumWork : List ScheduleDay → Int
  | [] => 0
  | d :: ds => (if d.is_work then d.end_ - d.start else 0) + sumWork ds

/-- Sum of `day.end - day.start` over all days of a list (flag ignored). -/
def sumWidth : List ScheduleDay → Int
  | [] => 0
  | d :: ds => (d.end_ - d.start) + sumWidth ds

/-- A valid `DayWindow` per the spec's data model: `start <= end` and the
window lies within one calendar date. -/
def ValidWindow (w : ScheduleDay) : Prop :=
  w.start ≤ w.end_ ∧ dateOf w.start = dateOf w.end_

/-- At most one window per calendar date, the spec's schedule invariant. -/
def OnePerDate (schedule : List ScheduleDay) : Prop :=
  schedule.Pairwise (fun a b => dateOf a.start ≠ dateOf b.start)

/-- Embeds one raw row of the table passed to `convert_data`
(`src/time_vktrbr/worktime.py` lines 74-147): a date-only day (as a day
index), optional start/end time-of-day strings (parsed to seconds after
midnight; `none` is a missing value) and the working-day flag.  A parsed
time string compares equal to `pd.Timestamp('00:00:00')` exactly when its
seconds-after-midnight value is `0`. -/
structure RawRow where
  day : Int
  start_time : Option Int
  end_time : Option Int
  is_work : Bool
deriving DecidableEq, Repr

/-- Embeds the inner function `convert_raw` (lines 105-144): resolve missing
times of one row, possibly flipping the working flag, then combine the
row's date with the resolved times-of-day into full timestamps. -/
def convert_raw (start_time_default end_time_default : Int) (raw : RawRow) : ScheduleDay :=
  let r :=
    if raw.is_work = false then
      if raw.start_time = none ∧ raw.end_time = none then
        { raw with start_time := some 0, end_time := some 0 }
      else if raw.start_time = none ∧ raw.end_time ≠ none then
        (if raw.end_time = some 0 then { raw with start_time := some 0 }
         else { raw with start_time := some start_time_default, is_work := true })
      else if raw.end_time = none ∧ raw.start_time ≠ none then
        (if raw.start_time = some 0 then { raw with end_time := some 0 }
         else { raw with end_time := some end_time_default, is_work := true })
      else
        (if raw.start_time ≠ some 0 ∨ raw.end_time ≠ some 0 then { raw with is_work := true }
         else raw)
    else
      let r1 := if raw.start_time = none then { raw with start_time := some start_time_default }
                else raw
      if r1.end_time = none then { r1 with end_time := some end_time_default } else r1
  { start := r.day * 86400 + r.start_time.getD 0,
    end_ := r.day * 86400 + r.end_time.getD 0,
    is_work := r.is_work }

/-- Embeds `convert_data` (lines 74-147): apply `convert_raw` to every row
(`data.apply(convert_raw, axis=1)` followed by `.to_list()`).  The column
selection and the no-missing-values asserts of lines 101-103 are vacuous in
the typed embedding. -/
def convert_data (start_time_default end_time_default : Int) (data : List RawRow) :
    List ScheduleDay :=
  data.map (convert_raw start_time_default end_time_default)

/-- Embeds `ScheduleDay` of `src/time/worktime.py` (its flag field is named
`work` there). -/
structure TimeScheduleDay where
  start : Int
  end_ : Int
  work : Bool
deriving DecidableEq, Repr

/-- Embeds `worktime` of `src/time/worktime.py` (lines 13-25): after the type
asserts (where `schedule[0]` on an empty list raises `IndexError`) it sorts
the schedule in place by `start` and then returns the schedule list itself -
not a seconds count.  It never compares `start` with `end`. -/
def timeWorktime (start end_ : Int) (schedule : List TimeScheduleDay) :
    Except WErr (List TimeScheduleDay) :=
  if schedule = [] then .error .invalidInput
  else .ok (schedule.insertionSort (fun a b => a.start ≤ b.start))

instance {ε α : Type} [DecidableEq ε] [DecidableEq α] : DecidableEq (Except ε α) :=
  fun a b =>
    match a, b with
    | .ok x, .ok y => decidable_of_iff (x = y) (by simp)
    | .error x, .error y => decidable_of_iff (x = y) (by simp)
    | .ok _, .error _ => isFalse (by simp)
    | .error _, .ok _ => isFalse (by simp)

instance (w : ScheduleDay) : Decidable (ValidWindow w) := by
  unfold ValidWindow
  infer_instance

instance (sch : List ScheduleDay) : Decidable (OnePerDate sch) := by
  unfold OnePerDate
  infer_instance

instance : IsTotal ScheduleDay (fun a b => a.start ≤ b.start) :=
  ⟨fun a b => le_total a.start b.start⟩

instance : IsTrans ScheduleDay (fun a b => a.start ≤ b.start) :=
  ⟨fun _ _ _ h1 h2 => le_trans h1 h2⟩

/-- Monotonicity of the calendar date: a later instant has a later-or-equal
date. -/
theorem dateOf_mono {a b : Int} (h : a ≤ b) : dateOf a ≤ dateOf b :=
  Int.ediv_le_ediv (by norm_num) h

/-- Membership in the sorted-and-filtered list of line 48: exactly the
schedule's windows passing the overlap filter. -/
theorem mem_survivors {start end_ : Int} {sch : List ScheduleDay} {w : ScheduleDay} :
    w ∈ survivors start end_ sch ↔ w ∈ sch ∧ w.start ≤ end_ ∧ start ≤ w.end_ := by
  unfold survivors sortByStart
  rw [List.mem_filter]
  simp [(List.perm_insertionSort (fun a b => a.start ≤ b.start) sch).mem_iff]

/-- The list of line 48 is sorted ascending by window start. -/
theorem survivors_sorted (start end_ : Int) (sch : List ScheduleDay) :
    (survivors start end_ sch).Pairwise (fun a b => a.start ≤ b.start) := by
  unfold survivors sortByStart
  have hs : List.Sorted (fun a b : ScheduleDay => a.start ≤ b.start)
      (List.insertionSort (fun a b : ScheduleDay => a.start ≤ b.start) sch) :=
    List.sorted_insertionSort _ sch
  exact List.Pairwise.sublist (List.filter_sublist _) hs

/-- Distinct calendar dates survive sorting and filtering. -/
theorem survivors_dates {sch : List ScheduleDay} (start end_ : Int) (hd : OnePerDate sch) :
    (survivors start end_ sch).Pairwise (fun a b => dateOf a.start ≠ dateOf b.start) := by
  unfold survivors sortByStart
  exact List.Pairwise.sublist (List.filter_sublist _)
    (((List.perm_insertionSort (fun a b => a.start ≤ b.start) sch).pairwise_iff
      (fun hxy => Ne.symm hxy)).mpr hd)

/-- With one window per date, the sorted-and-filtered list has no duplicate
elements (so each `schedule.remove(day)` of line 63 removes the intended
element). -/
theorem survivors_nodup {sch : List ScheduleDay} (start end_ : Int) (hd : OnePerDate sch) :
    (survivors start end_ sch).Nodup :=
  (survivors_dates start end_ hd).imp (fun hne heq => hne (by rw [heq]))

/-- In the sorted-and-filtered list, each window ends no later than any later
window starts: windows lie within their own dates and dates are distinct, so
a window of an earlier start lives on a strictly earlier date. -/
theorem survivors_chain {start end_ : Int} {sch : List ScheduleDay}
    (hv : ∀ w ∈ sch, ValidWindow w) (hd : OnePerDate sch) :
    (survivors start end_ sch).Pairwise (fun a b => a.end_ ≤ b.start) := by
  refine ((survivors_sorted start end_ sch).and (survivors_dates start end_ hd)).imp_of_mem ?_
  intro a b ha hb hab
  obtain ⟨hle, hne⟩ := hab
  have va : dateOf a.start = dateOf a.end_ := (hv a (mem_survivors.mp ha).1).2
  by_contra hcon
  push_neg at hcon
  have h1 : dateOf b.start ≤ dateOf a.end_ := dateOf_mono hcon.le
  have h2 : dateOf a.start ≤ dateOf b.start := dateOf_mono hle
  exact hne (le_antisymm h2 (va ▸ h1))

/-- The loop of lines 59-63 run over a duplicate-free list: visiting the
slice `mid` removes exactly those elements and accumulates the working
widths of `mid`. -/
theorem reduceLoop_eq {rest : List ScheduleDay} (d0 : ScheduleDay) :
    ∀ (mid : List ScheduleDay) (acc : Int), (d0 :: (mid ++ rest)).Nodup →
      reduceLoop mid (d0 :: (mid ++ rest)) acc = .ok (d0 :: rest, acc + sumWork mid) := by
  intro mid
  induction mid with
  | nil => intro acc _; simp [reduceLoop, sumWork]
  | cons m ms ih =>
    intro acc h
    have hd0m : d0 ≠ m := by
      intro heq
      have : d0 ∉ m :: (ms ++ rest) := (List.nodup_cons.mp h).1
      exact this (heq ▸ List.mem_cons_self _ _)
    have hmem : m ∈ d0 :: (m :: ms ++ rest) :=
      List.mem_cons_of_mem _ (List.mem_cons_self _ _)
    have herase : (d0 :: (m :: ms ++ rest)).erase m = d0 :: (ms ++ rest) := by
      rw [List.erase_cons]
      simp [hd0m]
    have hnd : (d0 :: (ms ++ rest)).Nodup := by
      refine List.Nodup.sublist ?_ h
      exact List.Sublist.cons₂ d0 (List.sublist_cons_self m (ms ++ rest))
    show (if m ∈ d0 :: (m :: ms ++ rest) then
        reduceLoop ms ((d0 :: (m :: ms ++ rest)).erase m)
          (if m.is_work then acc + (m.end_ - m.start) else acc)
      else .error .valueError) = _
    rw [if_pos hmem, herase, ih _ hnd]
    by_cases hw : m.is_work <;>
      simp [hw, sumWork, Except.ok.injEq, Prod.mk.injEq] <;> ring

/-- Evaluation of lines 50-71 when exactly one window survives the filter. -/
theorem afterFilter_single (start end_ : Int) (w : ScheduleDay) :
    afterFilter start end_ [w] =
      if dateOf start = dateOf end_ then .ok (end_ - start) else .ok (w.end_ - start) := by
  unfold afterFilter
  simp

/-- Evaluation of lines 50-71 when no window survives the filter: the access
`schedule[0]` on line 66 is out of bounds. -/
theorem afterFilter_nil (start end_ : Int) :
    afterFilter start end_ [] = .error .indexError := by
  unfold afterFilter
  simp [boundarySum]

/-- Evaluation of lines 50-71 when at least two windows survive, written with
the first window, the interior windows and the last window made explicit:
interior working widths plus the two boundary terms. -/
theorem afterFilter_multi (start end_ : Int) (d0 dn : ScheduleDay) (mid : List ScheduleDay)
    (hnd : (d0 :: (mid ++ [dn])).Nodup) :
    afterFilter start end_ (d0 :: (mid ++ [dn])) =
      .ok (sumWork mid + (if d0.is_work then d0.end_ - start else 0)
                       + (if dn.is_work then end_ - dn.start else 0)) := by
  unfold afterFilter
  cases mid with
  | nil => simp [boundarySum, sumWork]
  | cons m ms =>
    have hlen : (d0 :: ((m :: ms) ++ [dn])).length = ms.length + 3 := by
      simp
    rw [if_neg (by rw [hlen]; omega : ¬ (d0 :: ((m :: ms) ++ [dn])).length = 1)]
    rw [if_pos (by rw [hlen]; omega : 2 < (d0 :: ((m :: ms) ++ [dn])).length)]
    have hslice : ((d0 :: ((m :: ms) ++ [dn])).drop 1).dropLast = m :: ms := by
      show ((m :: ms) ++ [dn]).dropLast = m :: ms
      exact List.dropLast_concat
    rw [hslice, reduceLoop_eq d0 (m :: ms) 0 hnd]
    simp [boundarySum]

/-- After passing validation, `worktime` is the reduction applied to the
sorted-and-filtered schedule. -/
theorem worktime_eq {start end_ : Int} {sch : List ScheduleDay}
    (h1 : sch ≠ []) (h2 : start ≤ end_) :
    worktime start end_ sch = afterFilter start end_ (survivors start end_ sch) := by
  unfold worktime
  rw [if_neg h1, if_neg (not_lt.mpr h2)]

/-- The loop of lines 59-63 can only abort via `list.remove`
(a `ValueError`). -/
theorem reduceLoop_error {e : WErr} :
    ∀ (sl sch : List ScheduleDay) (acc : Int),
      reduceLoop sl sch acc = .error e → e = .valueError := by
  intro sl
  induction sl with
  | nil => intro sch acc h; cases h
  | cons d ds ih =>
    intro sch acc h
    by_cases hm : d ∈ sch
    · rw [show reduceLoop (d :: ds) sch acc =
          reduceLoop ds (sch.erase d) (if d.is_work then acc + (d.end_ - d.start) else acc) by
            simp [reduceLoop, hm]] at h
      exact ih _ _ h
    · rw [show reduceLoop (d :: ds) sch acc = .error .valueError by simp [reduceLoop, hm]] at h
      cases h
      rfl

/-- The reduction of lines 50-71 never reports a validation failure: every
abort after line 42 is an out-of-bounds access or a failed removal. -/
theorem afterFilter_ne_invalid (start end_ : Int) (l : List ScheduleDay) :
    afterFilter start end_ l ≠ .error .invalidInput := by
  unfold afterFilter
  split
  · split
    · simp
    · cases l.head? <;> simp
  · cases hr : (if 2 < l.length then reduceLoop ((l.drop 1).dropLast) l 0 else .ok (l, 0)) with
    | error e =>
      have he : e = .valueError := by
        by_cases h2 : 2 < l.length
        · rw [if_pos h2] at hr
          exact reduceLoop_error _ _ _ hr
        · rw [if_neg h2] at hr
          cases hr
      simp [he]
    | ok st =>
      rcases st with ⟨s, t⟩
      match s with
      | [] => simp [boundarySum]
      | [a] => simp [boundarySum]
      | a :: b :: bs => simp [boundarySum]

/-- A list of length at least two is a head, a middle and a last element. -/
theorem two_le_decomp {l : List ScheduleDay} (h : 2 ≤ l.length) :
    ∃ d0 mid dn, l = d0 :: (mid ++ [dn]) := by
  match l, h with
  | a :: b :: t, _ =>
    refine ⟨a, (b :: t).dropLast, (b :: t).getLast (by simp), ?_⟩
    rw [List.dropLast_append_getLast]

/-- The loop accumulator stays zero over a list of non-working days. -/
theorem sumWork_eq_zero {l : List ScheduleDay} (h : ∀ w ∈ l, w.is_work = false) :
    sumWork l = 0 := by
  induction l with
  | nil => rfl
  | cons d ds ih =>
    have hd := h d (List.mem_cons_self _ _)
    have hds := ih (fun w hw => h w (List.mem_cons_of_mem _ hw))
    simp [sumWork, hd, hds]

/-- Working widths of valid windows are non-negative, so is their sum. -/
theorem sumWork_nonneg {l : List ScheduleDay} (h : ∀ w ∈ l, w.start ≤ w.end_) :
    0 ≤ sumWork l := by
  induction l with
  | nil => simp [sumWork]
  | cons d ds ih =>
    have hd := h d (List.mem_cons_self _ _)
    have hds := ih (fun w hw => h w (List.mem_cons_of_mem _ hw))
    cases hw : d.is_work <;> simp [sumWork, hw] <;> omega

/-- The work-guarded sum is at most the unguarded sum of widths when widths
are non-negative. -/
theorem sumWork_le_sumWidth {l : List ScheduleDay} (h : ∀ w ∈ l, w.start ≤ w.end_) :
    sumWork l ≤ sumWidth l := by
  induction l with
  | nil => simp [sumWork, sumWidth]
  | cons d ds ih =>
    have hd := h d (List.mem_cons_self _ _)
    have hds := ih (fun w hw => h w (List.mem_cons_of_mem _ hw))
    cases hw : d.is_work <;> simp [sumWork, sumWidth, hw] <;> omega

/-- Telescoping bound: when each window ends before any later one starts, the
total width of the middle windows fits between the first window's end and the
last window's start. -/
theorem chain_bound :
    ∀ (mid : List ScheduleDay) (d0 dn : ScheduleDay),
      (d0 :: (mid ++ [dn])).Pairwise (fun a b => a.end_ ≤ b.start) →
      d0.end_ + sumWidth mid ≤ dn.start := by
  intro mid
  induction mid with
  | nil =>
    intro d0 dn h
    have h1 : d0.end_ ≤ dn.start := (List.pairwise_cons.mp h).1 dn (by simp)
    simpa [sumWidth] using h1
  | cons m ms ih =>
    intro d0 dn h
    have h1 : d0.end_ ≤ m.start := (List.pairwise_cons.mp h).1 m (by simp)
    have h2 := ih m dn (List.pairwise_cons.mp h).2
    simp only [sumWidth]
    omega

/-- C1: with at least three windows passing the overlap filter, the result is
the sum of the full widths of the working interior windows plus the first-day
term `first.end - start` when the first surviving window is working, plus the
last-day term `end - last.start` when the last surviving window is working;
and on the four-day example schedule, `worktime(Mon 11:15, Tue 14:50)` is
45300 seconds. -/
theorem C1_interior_sum :
    (∀ (start end_ : Int) (sch : List ScheduleDay) (d0 dn : ScheduleDay)
        (mid : List ScheduleDay),
        sch ≠ [] → (∀ w ∈ sch, ValidWindow w) → OnePerDate sch → start ≤ end_ →
        survivors start end_ sch = d0 :: (mid ++ [dn]) → mid ≠ [] →
        worktime start end_ sch =
          .ok (sumWork mid + (if d0.is_work then d0.end_ - start else 0)
                           + (if dn.is_work then end_ - dn.start else 0)))
    ∧ worktime 40500 139800
        [⟨32400, 64800, true⟩, ⟨118800, 151200, true⟩, ⟨172800, 172800, false⟩,
         ⟨259200, 259200, false⟩] = .ok 45300 := by
  constructor
  · intro start end_ sch d0 dn mid h1 _hv hd h2 hdec _hmid
    have hnd : (d0 :: (mid ++ [dn])).Nodup := hdec ▸ survivors_nodup start end_ hd
    rw [worktime_eq h1 h2, hdec, afterFilter_multi start end_ d0 dn mid hnd]
  · decide

/-- C1 witness: a concrete call with three surviving working windows. -/
theorem C1_interior_sum_witness :
    worktime 36000 234000
      [⟨32400, 64800, true⟩, ⟨118800, 151200, true⟩, ⟨205200, 237600, true⟩] = .ok 90000 := by
  have h := C1_interior_sum.1 36000 234000
    [⟨32400, 64800, true⟩, ⟨118800, 151200, true⟩, ⟨205200, 237600, true⟩]
    ⟨32400, 64800, true⟩ ⟨205200, 237600, true⟩ [⟨118800, 151200, true⟩]
    (by decide) (by decide) (by decide) (by decide) (by decide) (by decide)
  rw [h]
  decide

/-- C3: when exactly one schedule window passes the overlap filter, the
result is `end - start` if start and end share a calendar date (whatever the
window's flag), and `window.end - start` otherwise. -/
theorem C3_single_survivor (start end_ : Int) (sch : List ScheduleDay) (w : ScheduleDay)
    (h1 : sch ≠ []) (h2 : start ≤ end_) (hs : survivors start end_ sch = [w]) :
    worktime start end_ sch =
      if dateOf start = dateOf end_ then .ok (end_ - start) else .ok (w.end_ - start) := by
  rw [worktime_eq h1 h2, hs, afterFilter_single]

/-- C3 witness: a same-date call whose single surviving window yields
`end - start`. -/
theorem C3_single_survivor_witness :
    worktime 34200 36000 [⟨32400, 64800, true⟩] = .ok 1800 := by
  have h := C3_single_survivor 34200 36000 [⟨32400, 64800, true⟩] ⟨32400, 64800, true⟩
    (by decide) (by decide) (by decide)
  rw [h]
  decide

/-- C5 counterexample: a valid call sorts the caller's list in place, so the
caller's list does not keep its original order. -/
theorem C5_counterexample :
    scheduleAfterCall 0 100000 [⟨86400, 90000, true⟩, ⟨0, 3600, true⟩]
        = [⟨0, 3600, true⟩, ⟨86400, 90000, true⟩]
    ∧ scheduleAfterCall 0 100000 [⟨86400, 90000, true⟩, ⟨0, 3600, true⟩]
        ≠ [⟨86400, 90000, true⟩, ⟨0, 3600, true⟩] := by decide

/-- C5 (amended): the caller's list after a call holds the same elements up
to permutation - it is sorted ascending by window start when validation
passes, and untouched otherwise. -/
theorem C5_permutation_amended (start end_ : Int) (sch : List ScheduleDay) :
    (scheduleAfterCall start end_ sch).Perm sch := by
  unfold scheduleAfterCall sortByStart
  split
  · exact List.Perm.refl _
  · split
    · exact List.Perm.refl _
    · exact List.perm_insertionSort _ _

/-- C6 counterexample: a call meeting every precondition (non-empty schedule
of valid windows, one per date, start before end) for which the overlap
filter leaves zero windows aborts with an out-of-bounds list access instead
of returning a result. -/
theorem C6_counterexample :
    (∀ w ∈ [(⟨0, 100, true⟩ : ScheduleDay)], ValidWindow w)
    ∧ OnePerDate [(⟨0, 100, true⟩ : ScheduleDay)]
    ∧ (200 : Int) ≤ 300
    ∧ survivors 200 300 [(⟨0, 100, true⟩ : ScheduleDay)] = []
    ∧ worktime 200 300 [(⟨0, 100, true⟩ : ScheduleDay)] = .error .indexError := by decide

/-- C6 (amended): under the preconditions, whenever at least one window
passes the overlap filter every list access is in bounds and the call
returns a result; with zero surviving windows it aborts on `schedule[0]`. -/
theorem C6_total_amended (start end_ : Int) (sch : List ScheduleDay)
    (h1 : sch ≠ []) (h2 : start ≤ end_) (hd : OnePerDate sch)
    (hs : survivors start end_ sch ≠ []) :
    ∃ r : Int, worktime start end_ sch = .ok r := by
  rw [worktime_eq h1 h2]
  by_cases hone : (survivors start end_ sch).length = 1
  · obtain ⟨w, hw⟩ := List.length_eq_one.mp hone
    rw [hw, afterFilter_single]
    split
    · exact ⟨_, rfl⟩
    · exact ⟨_, rfl⟩
  · have h0 : (survivors start end_ sch).length ≠ 0 := by
      simpa [List.length_eq_zero] using hs
    have h2le : 2 ≤ (survivors start end_ sch).length := by omega
    obtain ⟨d0, mid, dn, hdec⟩ := two_le_decomp h2le
    have hnd : (d0 :: (mid ++ [dn])).Nodup := hdec ▸ survivors_nodup start end_ hd
    rw [hdec, afterFilter_multi start end_ d0 dn mid hnd]
    exact ⟨_, rfl⟩

/-- C6 witness: a call with one surviving window returns a result. -/
theorem C6_total_amended_witness :
    ∃ r : Int, worktime 37800 39600 [⟨32400, 64800, true⟩] = .ok r :=
  C6_total_amended 37800 39600 [⟨32400, 64800, true⟩]
    (by decide) (by decide) (by decide) (by decide)

/-- C7: the call reports a validation failure, producing no result, exactly
when the schedule is empty or `start > end` (the malformed-element case of
the claim is unrepresentable in this typed embedding, where only element
zero's type is checked by the code anyway); on every other input it never
reports that failure. -/
theorem C7_invalid_input_iff (start end_ : Int) (sch : List ScheduleDay) :
    worktime start end_ sch = .error .invalidInput ↔ (sch = [] ∨ end_ < start) := by
  constructor
  · intro h
    by_contra hc
    push_neg at hc
    obtain ⟨hne, hle⟩ := hc
    rw [worktime_eq hne hle] at h
    exact afterFilter_ne_invalid _ _ _ h
  · intro h
    unfold worktime
    rcases h with h | h
    · rw [if_pos h]
    · by_cases he : sch = []
      · rw [if_pos he]
      · rw [if_neg he, if_pos h]

/-- C10: evaluation of both implementations at one input meeting the
preconditions: the draft in `src/time/worktime.py` returns the (sorted)
schedule list itself, while `src/time_vktrbr/worktime.py` returns the
working-seconds count, so the two do not return the same result. -/
theorem C10_draft_eval :
    timeWorktime 0 100 [⟨0, 200, true⟩] = .ok [⟨0, 200, true⟩]
    ∧ worktime 0 100 [⟨0, 200, true⟩] = .ok 100 := by decide

/-- C2 counterexample: a valid same-date call whose only overlapping window
is non-working returns the full span, not 0 (the single-survivor branch of
lines 51-53 never consults the flag). -/
theorem C2_counterexample :
    (∀ w ∈ [(⟨0, 0, false⟩ : ScheduleDay)], ValidWindow w)
    ∧ OnePerDate [(⟨0, 0, false⟩ : ScheduleDay)]
    ∧ (0 : Int) ≤ 18000
    ∧ (∀ w ∈ survivors 0 18000 [(⟨0, 0, false⟩ : ScheduleDay)], w.is_work = false)
    ∧ worktime 0 18000 [(⟨0, 0, false⟩ : ScheduleDay)] = .ok 18000
    ∧ (18000 : Int) ≠ 0 := by decide

/-- C2 (amended): when every window passing the overlap filter is
non-working and at least two windows pass it, the result is 0; with exactly
one survivor the flag is ignored (same-date spans return `end - start`,
cross-date spans `window.end - start`), and with zero survivors the call
aborts. -/
theorem C2_zero_amended (start end_ : Int) (sch : List ScheduleDay)
    (h1 : sch ≠ []) (h2 : start ≤ end_) (hd : OnePerDate sch)
    (hlen : 2 ≤ (survivors start end_ sch).length)
    (hnw : ∀ w ∈ survivors start end_ sch, w.is_work = false) :
    worktime start end_ sch = .ok 0 := by
  obtain ⟨d0, mid, dn, hdec⟩ := two_le_decomp hlen
  have hnd : (d0 :: (mid ++ [dn])).Nodup := hdec ▸ survivors_nodup start end_ hd
  rw [worktime_eq h1 h2, hdec, afterFilter_multi start end_ d0 dn mid hnd]
  have h0 : d0.is_work = false := hnw d0 (by rw [hdec]; exact List.mem_cons_self _ _)
  have hdn : dn.is_work = false := hnw dn (by rw [hdec]; simp)
  have hmid : ∀ w ∈ mid, w.is_work = false := fun w hw => hnw w (by rw [hdec]; simp [hw])
  rw [sumWork_eq_zero hmid]
  simp [h0, hdn]

/-- C2 witness: two surviving non-working windows give 0 seconds. -/
theorem C2_zero_amended_witness :
    worktime 43200 129600 [⟨43200, 43200, false⟩, ⟨129600, 129600, false⟩] = .ok 0 :=
  C2_zero_amended 43200 129600 [⟨43200, 43200, false⟩, ⟨129600, 129600, false⟩]
    (by decide) (by decide) (by decide) (by decide) (by decide)

/-- C4 counterexample: a valid call (one valid window per date, start before
end) whose sole surviving window crosses the query end returns
`window.end - start`, exceeding `end - start`. -/
theorem C4_counterexample :
    (∀ w ∈ [(⟨86400, 169200, true⟩ : ScheduleDay)], ValidWindow w)
    ∧ OnePerDate [(⟨86400, 169200, true⟩ : ScheduleDay)]
    ∧ (82800 : Int) ≤ 90000
    ∧ worktime 82800 90000 [(⟨86400, 169200, true⟩ : ScheduleDay)] = .ok 86400
    ∧ ¬ ((86400 : Int) ≤ 90000 - 82800) := by decide

/-- C4 (amended): under the preconditions every returned result is
non-negative, and it is at most `end - start` except possibly when exactly
one window survives the filter and start and end fall on different calendar
dates (the branch of line 57, which returns `window.end - start`). -/
theorem C4_bounds_amended (start end_ : Int) (sch : List ScheduleDay)
    (h1 : sch ≠ []) (hv : ∀ w ∈ sch, ValidWindow w) (hd : OnePerDate sch) (h2 : start ≤ end_) :
    ∀ r : Int, worktime start end_ sch = .ok r →
      0 ≤ r ∧ (((survivors start end_ sch).length ≠ 1 ∨ dateOf start = dateOf end_) →
        r ≤ end_ - start) := by
  intro r hr
  rcases hsv : survivors start end_ sch with _ | ⟨a, rest⟩
  · rw [worktime_eq h1 h2, hsv, afterFilter_nil] at hr
    cases hr
  · rcases hrest : rest with _ | ⟨b, t⟩
    · subst hrest
      rw [worktime_eq h1 h2, hsv, afterFilter_single] at hr
      by_cases hdate : dateOf start = dateOf end_
      · rw [if_pos hdate] at hr
        obtain rfl := Except.ok.inj hr
        exact ⟨by omega, fun _ => by omega⟩
      · rw [if_neg hdate] at hr
        obtain rfl := Except.ok.inj hr
        have ha : a ∈ survivors start end_ sch := by
          rw [hsv]
          exact List.mem_cons_self _ _
        have hfa : start ≤ a.end_ := (mem_survivors.mp ha).2.2
        refine ⟨by omega, ?_⟩
        intro hcond
        rcases hcond with hlen | hdate2
        · exact absurd rfl hlen
        · exact absurd hdate2 hdate
    · subst hrest
      have h2le : 2 ≤ (survivors start end_ sch).length := by
        rw [hsv]
        simp
      obtain ⟨d0, mid, dn, hdec⟩ := two_le_decomp h2le
      have hnd : (d0 :: (mid ++ [dn])).Nodup := hdec ▸ survivors_nodup start end_ hd
      rw [worktime_eq h1 h2, hdec, afterFilter_multi start end_ d0 dn mid hnd] at hr
      obtain rfl := Except.ok.inj hr
      have hchain : (d0 :: (mid ++ [dn])).Pairwise (fun a b => a.end_ ≤ b.start) :=
        hdec ▸ survivors_chain hv hd
      have hmemd0 : d0 ∈ survivors start end_ sch := by
        rw [hdec]
        exact List.mem_cons_self _ _
      have hmemdn : dn ∈ survivors start end_ sch := by
        rw [hdec]
        simp
      have hvs : ∀ w ∈ mid, w.start ≤ w.end_ := by
        intro w hw
        have hws : w ∈ survivors start end_ sch := by
          rw [hdec]
          simp [hw]
        exact (hv w (mem_survivors.mp hws).1).1
      have hb0 : start ≤ d0.end_ := (mem_survivors.mp hmemd0).2.2
      have hb1 : dn.start ≤ end_ := (mem_survivors.mp hmemdn).2.1
      have ht := chain_bound mid d0 dn hchain
      have hw1 := sumWork_nonneg hvs
      have hw2 := sumWork_le_sumWidth hvs
      constructor
      · cases h0 : d0.is_work <;> cases hn : dn.is_work <;> simp [h0, hn] <;> omega
      · intro _
        cases h0 : d0.is_work <;> cases hn : dn.is_work <;> simp [h0, hn] <;> omega

/-- C4 witness: a same-date single-window call satisfies both bounds. -/
theorem C4_bounds_amended_witness :
    (0 : Int) ≤ 1800 ∧ (1800 : Int) ≤ 36000 - 34200 := by
  have h := C4_bounds_amended 34200 36000 [⟨32400, 64800, true⟩]
    (by decide) (by decide) (by decide) (by decide) 1800 (by decide)
  exact ⟨h.1, h.2 (by decide)⟩

/-- C8: per-row normalization: a working row keeps present times and fills
missing ones from the defaults; a non-working row with exactly one present
time stays non-working at midnight when that time is midnight, and otherwise
has its missing side default-filled and its flag flipped to working; a
non-working row with both times present and either one non-midnight keeps
both times and flips the flag to working. -/
theorem C8_normalize_cases (std etd : Int) (r : RawRow) :
    (r.is_work = true →
      convert_raw std etd r =
        ⟨r.day * 86400 + r.start_time.getD std, r.day * 86400 + r.end_time.getD etd, true⟩)
    ∧ (r.is_work = false → r.start_time = none → ∀ t : Int, r.end_time = some t →
        (t = 0 → convert_raw std etd r = ⟨r.day * 86400, r.day * 86400, false⟩)
        ∧ (t ≠ 0 → convert_raw std etd r = ⟨r.day * 86400 + std, r.day * 86400 + t, true⟩))
    ∧ (r.is_work = false → r.end_time = none → ∀ s : Int, r.start_time = some s →
        (s = 0 → convert_raw std etd r = ⟨r.day * 86400, r.day * 86400, false⟩)
        ∧ (s ≠ 0 → convert_raw std etd r = ⟨r.day * 86400 + s, r.day * 86400 + etd, true⟩))
    ∧ (r.is_work = false → ∀ s t : Int, r.start_time = some s → r.end_time = some t →
        (s ≠ 0 ∨ t ≠ 0) →
        convert_raw std etd r = ⟨r.day * 86400 + s, r.day * 86400 + t, true⟩) := by
  obtain ⟨day, st, et, iw⟩ := r
  refine ⟨?_, ?_, ?_, ?_⟩
  · intro hw
    subst hw
    cases st <;> cases et <;> simp [convert_raw]
  · intro hw hst t het
    subst hw
    subst hst
    subst het
    constructor
    · intro ht0
      subst ht0
      simp [convert_raw]
    · intro htne
      simp [convert_raw, htne]
  · intro hw het s hst
    subst hw
    subst het
    subst hst
    constructor
    · intro hs0
      subst hs0
      simp [convert_raw]
    · intro hsne
      simp [convert_raw, hsne]
  · intro hw s t hst het hne
    subst hw
    subst hst
    subst het
    rcases hne with h | h <;> simp [convert_raw, h]

/-- C8 witness: the spec's flag-flip example, a non-working row with a
10:00:00 to 14:00:00 range. -/
theorem C8_normalize_cases_witness :
    convert_raw 32400 64800 ⟨5, some 36000, some 50400, false⟩
      = ⟨5 * 86400 + 36000, 5 * 86400 + 50400, true⟩ :=
  (C8_normalize_cases 32400 64800 ⟨5, some 36000, some 50400, false⟩).2.2.2
    rfl 36000 50400 rfl rfl (by decide)

/-- C9 counterexample: a working row with a present 20:00:00 start and a
missing end filled by the 18:00:00 default produces a window with
`start > end`, violating the claimed invariant. -/
theorem C9_counterexample :
    convert_data 32400 64800 [⟨0, some 72000, none, true⟩] = [⟨72000, 64800, true⟩]
    ∧ ¬ ((72000 : Int) ≤ 64800) := by decide

/-- C9 (amended): every DayWindow produced by convert_data whose working
flag is false has `start = end` at midnight of its calendar date (hence
`start <= end` for those); windows produced with the flag true need not
satisfy `start <= end`. -/
theorem C9_nonwork_midnight (std etd : Int) (rows : List RawRow) :
    ∀ w ∈ convert_data std etd rows, w.is_work = false →
      w.start = w.end_ ∧ w.start % 86400 = 0 := by
  intro w hw hnw
  obtain ⟨r, _hr, rfl⟩ := List.mem_map.mp hw
  obtain ⟨day, st, et, iw⟩ := r
  cases iw
  case true =>
    cases st <;> cases et <;> simp [convert_raw] at hnw
  case false =>
    cases st with
    | none =>
      cases et with
      | none =>
        exact ⟨by simp [convert_raw], by simp [convert_raw]⟩
      | some t =>
        by_cases ht : t = 0
        · subst ht
          exact ⟨by simp [convert_raw], by simp [convert_raw]⟩
        · simp [convert_raw, ht] at hnw
    | some s =>
      cases et with
      | none =>
        by_cases hs : s = 0
        · subst hs
          exact ⟨by simp [convert_raw], by simp [convert_raw]⟩
        · simp [convert_raw, hs] at hnw
      | some t =>
        by_cases hs : s = 0
        · by_cases ht : t = 0
          · subst hs
            subst ht
            exact ⟨by simp [convert_raw], by simp [convert_raw]⟩
          · simp [convert_raw, ht] at hnw
        · simp [convert_raw, hs] at hnw

/-- C9 witness: a blank non-working row yields the zero-width midnight
window of its date. -/
theorem C9_nonwork_midnight_witness :
    ((⟨172800, 172800, false⟩ : ScheduleDay).start
        = (⟨172800, 172800, false⟩ : ScheduleDay).end_)
    ∧ ((⟨172800, 172800, false⟩ : ScheduleDay).start % 86400 = 0) :=
  C9_nonwork_midnight 32400 64800 [⟨2, none, none, false⟩] ⟨172800, 172800, false⟩
    (by decide) rfl

end Worktime
